import Mathlib

/-!
# Verification of the Google Takeout downloader core

A shallow embedding of `src/google_takeout_downloader.py` (class
`TakeoutDownloader`).  Pure Python functions become Lean functions; the
stateful methods (`download_file`, `get_pending_urls`, `save_progress`,
`load_progress`) become explicit state-passing functions over `DLState`.

External effects are modelled explicitly:
  * the filesystem is an association list `filename -> byte list`
    (bytes as `Nat`, keyed by path relative to the output directory);
  * the single `requests.get` call of `download_file` is an input value
    (`HttpResult`): either a raised exception or a response with a status
    code, the two headers the code reads, a chunk stream, and an optional
    mid-stream exception;
  * library calls with no algorithmic content in this repository are
    environment parameters (`Env`): `zipfile` container parsing
    (`zipOk`), `datetime.now()` (`now`, driven by a tick counter so that
    distinct calls may observe distinct times), JSON serialization of the
    ledger (`serialize`), and the configured headers/cookies/chunk size;
  * observable I/O (network requests, file opens/writes/replacements) is
    recorded in an event trace.
-/

set_option autoImplicit false

namespace Takeout

/-- The `DownloadStatus` dataclass (source lines 22-32).  Field names as in
the source; `status` is one of `"pending" | "downloading" | "completed" |
"failed" | "expired"`. -/
structure DownloadStatus where
  url : String
  filename : String
  status : String
  bytes_downloaded : Nat := 0
  total_bytes : Nat := 0
  started_at : Option String := none
  completed_at : Option String := none
  error_message : Option String := none
  retry_count : Nat := 0
  deriving Repr, DecidableEq

/-- Observable I/O events: a network request (with its headers and cookies),
opening a local file in a given mode (`"w"`, `"wb"`, `"ab"`), writing its
content, and an atomic replace (never emitted by this code, but needed to
state the snapshot-atomicity claim). -/
inductive Event where
  | netRequest (url : String) (headers : List (String × String)) (cookies : List (String × String))
  | openFile (path : String) (mode : String)
  | writeFile (path : String)
  | replaceFile (src : String) (dst : String)
  deriving Repr, DecidableEq

/-- Environment: external collaborators of the core, fixed for a run. -/
structure Env where
  /-- `zipfile.ZipFile(p).namelist()` succeeds on this byte content
  (raising `BadZipFile`/`OSError` otherwise). -/
  zipOk : List Nat → Bool
  /-- `datetime.now().isoformat()` etc. at the given tick. -/
  now : Nat → String
  /-- JSON serialization of the ledger map (`json.dump` content). -/
  serialize : List (String × DownloadStatus) → List Nat
  /-- `self.custom_headers`. -/
  custom_headers : List (String × String)
  /-- `self.cookies`. -/
  cookies : List (String × String)
  /-- `self.chunk_size` (positive in any real configuration; default 8192). -/
  chunk_size : Nat

/-- Mutable state of a `TakeoutDownloader`: the ledger map `self.downloads`
(insertion-ordered, like a Python dict), the local filesystem under the
output directory, the event trace, and the clock tick. -/
structure DLState where
  downloads : List (String × DownloadStatus)
  fs : List (String × List Nat)
  events : List Event
  tick : Nat
  deriving Repr, DecidableEq

/-- The empty initial state of a fresh run. -/
def initSt : DLState := ⟨[], [], [], 0⟩

/-! ## Association lists with Python-dict semantics -/

/-- Lookup in an insertion-ordered association list (Python `d[k]` / `in`). -/
def alookup {α : Type} : List (String × α) → String → Option α
  | [], _ => none
  | (k, v) :: rest, key => if key = k then some v else alookup rest key

/-- Assignment `d[k] = v` on a Python dict: replace in place if the key is
present, append otherwise (insertion order preserved). -/
def aset {α : Type} : List (String × α) → String → α → List (String × α)
  | [], key, v => [(key, v)]
  | (k, w) :: rest, key, v =>
    if key = k then (k, v) :: rest else (k, w) :: aset rest key v

@[simp] theorem alookup_nil {α : Type} (key : String) :
    alookup ([] : List (String × α)) key = none := rfl

theorem alookup_aset {α : Type} (m : List (String × α)) (k : String) (v : α) (key : String) :
    alookup (aset m k v) key = if key = k then some v else alookup m key := by
  induction m with
  | nil => simp [aset, alookup]
  | cons hd tl ih =>
    obtain ⟨k', w⟩ := hd
    by_cases hk : k = k'
    · subst hk
      by_cases hkey : key = k <;> simp [aset, alookup, hkey]
    · by_cases hkey : key = k'
      · subst hkey
        have hne : key ≠ k := fun h => hk h.symm
        simp [aset, alookup, hk, hne]
      · simp [aset, alookup, hk, hkey, ih]

@[simp] theorem alookup_aset_self {α : Type} (m : List (String × α)) (k : String) (v : α) :
    alookup (aset m k v) k = some v := by
  simp [alookup_aset]

theorem alookup_aset_ne {α : Type} (m : List (String × α)) (k : String) (v : α)
    (key : String) (h : key ≠ k) :
    alookup (aset m k v) key = alookup m key := by
  simp [alookup_aset, h]

/-! ## String helpers modelling `urllib.parse` / `pathlib` / `str` methods

These model the standard-library calls made by
`extract_filename_from_url` for HTTP(S)-style URL strings. -/

/-- `haystack.find(needle)` starting at running index `i` (first match). -/
def findSubAux (hay need : List Char) (i : Nat) : Option Nat :=
  match hay with
  | [] => if need.isEmpty then some i else none
  | _ :: t => if need.isPrefixOf hay then some i else findSubAux t need (i + 1)

/-- Python `haystack.find(needle)` (as an `Option` instead of `-1`). -/
def findSub (hay need : List Char) : Option Nat :=
  findSubAux hay need 0

/-- Python `haystack.find(needle, start)`. -/
def findSubFrom (hay need : List Char) (start : Nat) : Option Nat :=
  (findSubAux (hay.drop start) need 0).map (· + start)

/-- The `path` component of `urlparse(url)` for HTTP(S)-style URLs: after
`scheme://` the netloc runs to the first `/`, `?` or `#`; the path is the
rest up to the first `?` or `#`.  Without a `://` the whole string (up to
`?`/`#`) is the path. -/
def pathOfUrl (url : String) : String :=
  let cs := url.data
  match findSub cs ("://".data) with
  | none => String.mk (cs.takeWhile (fun c => c ≠ '?' ∧ c ≠ '#'))
  | some i =>
    let afterScheme := cs.drop (i + 3)
    let rest := afterScheme.dropWhile (fun c => c ≠ '/' ∧ c ≠ '?' ∧ c ≠ '#')
    match rest with
    | '/' :: _ => String.mk (rest.takeWhile (fun c => c ≠ '?' ∧ c ≠ '#'))
    | _ => ""

/-- Scan for `pathlib.Path(p).name`: `cur` is the segment being read,
`last` the last nonempty segment seen before it. -/
def basenameAux : List Char → List Char → List Char → List Char
  | [], cur, last => if cur.isEmpty then last else cur
  | c :: rest, cur, last =>
    if c = '/' then basenameAux rest [] (if cur.isEmpty then last else cur)
    else basenameAux rest (cur ++ [c]) last

/-- `pathlib.Path(p).name`: the last nonempty `/`-separated component. -/
def basename (p : String) : String :=
  String.mk (basenameAux p.data [] [])

/-- Value of a hex digit character, if it is one. -/
def hexDigit (c : Char) : Option Nat :=
  if '0' ≤ c ∧ c ≤ '9' then some (c.toNat - '0'.toNat)
  else if 'a' ≤ c ∧ c ≤ 'f' then some (c.toNat - 'a'.toNat + 10)
  else if 'A' ≤ c ∧ c ≤ 'F' then some (c.toNat - 'A'.toNat + 10)
  else none

/-- `urllib.parse.unquote` on the character list (percent-decoding; ASCII
range, which covers the `%XX` escapes Takeout URLs contain). -/
def unquoteList : List Char → List Char
  | '%' :: a :: b :: rest =>
    match hexDigit a, hexDigit b with
    | some x, some y => Char.ofNat (16 * x + y) :: unquoteList rest
    | _, _ => '%' :: unquoteList (a :: b :: rest)
  | c :: rest => c :: unquoteList rest
  | [] => []

/-- `urllib.parse.unquote` on strings. -/
def unquote (s : String) : String :=
  String.mk (unquoteList s.data)

/-- First branch of `extract_filename_from_url` (source lines 105-109):
the URL path is nonempty and its basename is a nonempty `.zip` name. -/
def zipBasenameBranch (url : String) : Bool :=
  let path := pathOfUrl url
  let name := basename path
  path ≠ "" && (name ≠ "" && (".zip".data).isSuffixOf name.data)

/-- Second branch of `extract_filename_from_url` (source lines 111-116):
`"takeout-"` occurs in the URL and `".zip"` occurs at or after it. -/
def takeoutBranch (url : String) : Bool :=
  match findSub url.data ("takeout-".data) with
  | some s => (findSubFrom url.data (".zip".data) s).isSome
  | none => false

/-- `extract_filename_from_url` (source lines 101-120).  `now` is the value
`datetime.now().strftime(..)` would produce if the final fallback is
reached (the only branch that consults the clock). -/
def extract_filename_from_url (now : String) (url : String) : String :=
  if zipBasenameBranch url then unquote (basename (pathOfUrl url))
  else
    match findSub url.data ("takeout-".data) with
    | some s =>
      match findSubFrom url.data (".zip".data) s with
      | some e => String.mk ((url.data.drop s).take (e + 4 - s))
      | none => "takeout_download_" ++ now ++ ".zip"
    | none => "takeout_download_" ++ now ++ ".zip"

/-- `validate_zip_file` (source lines 122-135): a missing file makes
`stat` raise `OSError`, caught as `False`; a file below 50000 bytes is
rejected; otherwise the zip container parse (`zipOk`) decides. -/
def validate_zip_file (env : Env) (fs : List (String × List Nat)) (file_path : String) : Bool :=
  match alookup fs file_path with
  | none => false
  | some bytes =>
    if bytes.length < 50000 then false
    else env.zipOk bytes

/-! ## The stateful operations -/

/-- `self.progress_file` relative to the output directory. -/
def progressFile : String := "download_progress.json"

/-- One `datetime.now()` call: read the clock and advance the tick. -/
def takeNow (env : Env) (st : DLState) : String × DLState :=
  (env.now st.tick, { st with tick := st.tick + 1 })

/-- `save_progress` (source lines 91-99): serialize the ledger and write it
by opening the progress file directly in truncating `'w'` mode (the
`json.dump(data, f)` after `open(self.progress_file, 'w')`).  Exceptions
are caught internally and only warned about. -/
def save_progress (env : Env) (st : DLState) : DLState :=
  { st with
    fs := aset st.fs progressFile (env.serialize st.downloads)
    events := st.events ++ [Event.openFile progressFile "w", Event.writeFile progressFile] }

/-- A `requests.get` response as far as `download_file` inspects it. -/
structure HttpOk where
  status : Nat
  /-- the `content-range` header, read when the status is 206 -/
  content_range : Option String
  /-- the `content-length` header, read when the status is 200 -/
  content_length : Option Nat
  /-- the chunk stream produced by `iter_content` -/
  chunks : List (List Nat)
  /-- an exception raised by the stream after the chunks above, if any -/
  stream_error : Option String

/-- Outcome of the `requests.get` call: an exception, or a response. -/
inductive HttpResult where
  | raised (msg : String)
  | resp (r : HttpOk)

/-- The text after the last `/` of the content-range value, followed by
`isdigit`/`int` (source
lines 215-219). -/
def parseContentRangeTotal (cr : String) : Option Nat :=
  let total := (cr.splitOn "/").getLastD ""
  if total ≠ "" ∧ total.data.all Char.isDigit then total.toNat? else none

/-- The `except` handler of `download_file` (source lines 262-268): mark
the record failed, record the cause, bump the retry count, persist. -/
def failWith (env : Env) (st : DLState) (url : String) (ds : DownloadStatus) (msg : String) :
    Bool × DLState :=
  let ds := { ds with status := "failed", error_message := some msg,
                      retry_count := ds.retry_count + 1 }
  let st := { st with downloads := aset st.downloads url ds }
  (false, save_progress env st)

/-- The chunk loop of `download_file` (source lines 232-240): skip falsy
(empty) chunks, append each chunk to the open file, track
`bytes_downloaded = resume_pos + written = len(content)`, and persist the
ledger every `chunk_size * 100` bytes. -/
def streamChunks (env : Env) (url filename : String) :
    List (List Nat) → DownloadStatus → DLState → List Nat →
    DownloadStatus × DLState × List Nat
  | [], ds, st, content => (ds, st, content)
  | chunk :: rest, ds, st, content =>
    if chunk = [] then streamChunks env url filename rest ds st content
    else
      let content' := content ++ chunk
      let ds := { ds with bytes_downloaded := content'.length }
      let st := { st with downloads := aset st.downloads url ds,
                          fs := aset st.fs filename content' }
      let st := if content'.length % (env.chunk_size * 100) = 0 then save_progress env st else st
      streamChunks env url filename rest ds st content'

/-- Lines 211-224 of `download_file`: extract the total size from the
`content-range` (206) or `content-length` (200) header when it is still
unknown. -/
def totalBytesUpdate (ds : DownloadStatus) (r : HttpOk) : DownloadStatus :=
  if ds.total_bytes = 0 then
    if r.status = 206 then
      match r.content_range with
      | some cr =>
        match parseContentRangeTotal cr with
        | some n => { ds with total_bytes := n }
        | none => ds
      | none => ds
    else
      match r.content_length with
      | some n => { ds with total_bytes := n }
      | none => ds
  else ds

/-- Lines 242-258 of `download_file`: after the stream has been fully
consumed without error — finalize the sizes from the observed byte count,
persist, run the validation gate, and either fail (keeping the file for
diagnosis) or mark the record completed. -/
def finalize_download (env : Env) (url : String) (ds : DownloadStatus) (st : DLState)
    (content : List Nat) : Bool × DLState :=
  -- lines 242-245: observed size overrides the declared size
  let ds := { ds with bytes_downloaded := content.length, total_bytes := content.length }
  let st := { st with downloads := aset st.downloads url ds }
  let st := save_progress env st
  -- lines 247-253: validation gate
  if ¬ validate_zip_file env st.fs ds.filename then
    let ds := { ds with
                status := "failed",
                error_message :=
                  some "Downloaded file is not a valid ZIP archive (likely HTML login page)" }
    let st := { st with downloads := aset st.downloads url ds }
    (false, save_progress env st)
  else
    -- lines 255-258: mark completed
    let t2 := env.now st.tick
    let st := { st with tick := st.tick + 1 }
    let ds := { ds with status := "completed", completed_at := some t2 }
    let st := { st with downloads := aset st.downloads url ds }
    (true, save_progress env st)

/-- Lines 211-268 of `download_file`: the transfer once the response status
is 200 or 206 — size extraction, open in append (resuming) or truncate
(fresh) mode, chunked streaming, then finalization; a mid-stream exception
goes to the except handler. -/
def finish_transfer (env : Env) (r : HttpOk) (st : DLState) (url : String)
    (ds : DownloadStatus) (resume_pos : Nat) : Bool × DLState :=
  let ds := totalBytesUpdate ds r
  -- lines 226-230: open append (resuming) or truncate (fresh)
  let mode := if resume_pos > 0 then "ab" else "wb"
  let initial := if resume_pos > 0 then (alookup st.fs ds.filename).getD [] else []
  let st := { st with events := st.events ++ [Event.openFile ds.filename mode],
                      fs := aset st.fs ds.filename initial }
  let ds := { ds with bytes_downloaded := resume_pos }
  let st := { st with downloads := aset st.downloads url ds }
  -- lines 232-240: stream the body
  let sc := streamChunks env url ds.filename r.chunks ds st initial
  match r.stream_error with
  | some msg => failWith env sc.2.1 url sc.1 msg
  | none => finalize_download env url sc.1 sc.2.1 sc.2.2

/-- Lines 172-174 of `download_file`: the record transitioned to
`downloading` with `started_at` stamped. -/
def dsDownloading (env : Env) (st : DLState) (ds : DownloadStatus) : DownloadStatus :=
  { ds with status := "downloading", started_at := some (env.now st.tick) }

/-- Lines 172-175 of `download_file`: the state after the `downloading`
transition is persisted. -/
def stSaved (env : Env) (st : DLState) (url : String) (ds : DownloadStatus) : DLState :=
  save_progress env
    { st with tick := st.tick + 1, downloads := aset st.downloads url (dsDownloading env st ds) }

/-- Lines 178-181 of `download_file`: the resume offset, i.e. the current
on-disk size of the file of the record (0 if absent). -/
def resumePos (env : Env) (st : DLState) (url : String) (ds : DownloadStatus) : Nat :=
  ((alookup (stSaved env st url ds).fs ds.filename).map List.length).getD 0

/-- Lines 184-189 of `download_file`: the configured custom headers, with
`Range: bytes=<offset>-` set when resuming. -/
def requestHeaders (env : Env) (st : DLState) (url : String) (ds : DownloadStatus) :
    List (String × String) :=
  if resumePos env st url ds > 0 then
    aset env.custom_headers "Range" ("bytes=" ++ toString (resumePos env st url ds) ++ "-")
  else env.custom_headers

/-- Lines 196-197 of `download_file`: the state once the request has been
issued (cookies attached as request cookies, not headers). -/
def stRequested (env : Env) (st : DLState) (url : String) (ds : DownloadStatus) : DLState :=
  let s := stSaved env st url ds
  { s with events :=
      s.events ++ [Event.netRequest url (requestHeaders env st url ds) env.cookies] }

/-- The body of `download_file` from the `downloading` transition onward
(source lines 172-268), shared by the fresh and the demoted-stale-record
entry paths. -/
def download_body (env : Env) (resp : HttpResult) (st : DLState) (url : String)
    (ds : DownloadStatus) : Bool × DLState :=
  let ds1 := dsDownloading env st ds
  let st1 := stRequested env st url ds
  match resp with
  | .raised msg => failWith env st1 url ds1 msg
  | .resp r =>
    -- lines 199-205: expired link
    if r.status = 403 ∨ r.status = 404 then
      let ds2 := { ds1 with
                   status := "expired",
                   error_message := some ("Link expired (HTTP " ++ toString r.status ++ ")") }
      let st2 := { st1 with downloads := aset st1.downloads url ds2 }
      (false, save_progress env st2)
    -- lines 207-209: unexpected status raises, handled by the except block
    else if ¬ (r.status = 200 ∨ r.status = 206) then
      failWith env st1 url ds1 ("HTTP " ++ toString r.status)
    else
      finish_transfer env r st1 url ds1 (resumePos env st url ds)

/-- `download_file` (source lines 149-268).  `resp` is the behaviour the
network exhibits if and when `requests.get` is reached. -/
def download_file (env : Env) (resp : HttpResult) (st : DLState) (url : String) :
    Bool × DLState :=
  -- lines 152-158: create the record lazily
  let created :=
    match alookup st.downloads url with
    | some ds => (st, ds)
    | none =>
      let t := env.now st.tick
      let st := { st with tick := st.tick + 1 }
      let ds : DownloadStatus :=
        { url := url, filename := extract_filename_from_url t url, status := "pending" }
      ({ st with downloads := aset st.downloads url ds }, ds)
  let st := created.1
  let ds := created.2
  -- lines 163-170: completed records are re-validated, not re-fetched
  if ds.status = "completed" ∧ (alookup st.fs ds.filename).isSome then
    if validate_zip_file env st.fs ds.filename then (true, st)
    else
      let ds := { ds with status := "pending" }
      let st := { st with downloads := aset st.downloads url ds }
      download_body env resp st url ds
  else
    download_body env resp st url ds

/-- One iteration of the loop in `get_pending_urls` (source lines 288-315):
whether `url` is appended to `pending`, and the record mutations made. -/
def pendingStep (env : Env) (st : DLState) (url : String) : Bool × DLState :=
  match alookup st.downloads url with
  | none => (true, st)
  | some ds =>
    if ds.status = "pending" ∨ ds.status = "failed" then
      (decide (ds.retry_count < 3), st)
    else if ds.status = "completed" ∨ ds.status = "downloading" then
      match alookup st.fs ds.filename with
      | some bytes =>
        if validate_zip_file env st.fs ds.filename then
          let t := env.now st.tick
          let st := { st with tick := st.tick + 1 }
          let ds := { ds with status := "completed", bytes_downloaded := bytes.length,
                              total_bytes := bytes.length, completed_at := some t }
          (false, { st with downloads := aset st.downloads url ds })
        else
          let ds := { ds with status := "pending",
                              error_message := some "Previous download was HTML, not ZIP" }
          (true, { st with downloads := aset st.downloads url ds })
      | none =>
        let ds := { ds with status := "pending" }
        (true, { st with downloads := aset st.downloads url ds })
    else (false, st)

/-- The loop of `get_pending_urls` over the URL list. -/
def pendingGo (env : Env) : List String → DLState → List String × DLState
  | [], st => ([], st)
  | u :: us, st =>
    let hd := pendingStep env st u
    let rest := pendingGo env us hd.2
    (if hd.1 then u :: rest.1 else rest.1, rest.2)

/-- `get_pending_urls` (source lines 285-319). -/
def get_pending_urls (env : Env) (st : DLState) (all_urls : List String) :
    List String × DLState :=
  let r := pendingGo env all_urls st
  (r.1, save_progress env r.2)

/-- `load_progress` (source lines 79-89): `parsed` is the result of the
external JSON parse of the progress file (`none` when the file is missing
or unreadable, in which case the map is untouched); each parsed entry is
assigned into `self.downloads`. -/
def load_progress (parsed : Option (List (String × DownloadStatus))) (st : DLState) : DLState :=
  match parsed with
  | none => st
  | some entries =>
    { st with downloads := entries.foldl (fun m p => aset m p.1 p.2) st.downloads }

/-! ## Derived predicates used by the claims -/

/-- The record for `url` exists, claims `completed`, its file exists and
passes validation — the early-return condition of `download_file`
(source lines 163-167). -/
def alreadyCompleteValid (env : Env) (st : DLState) (url : String) : Prop :=
  match alookup st.downloads url with
  | some ds => ds.status = "completed" ∧ (alookup st.fs ds.filename).isSome = true ∧
      validate_zip_file env st.fs ds.filename = true
  | none => False

instance (env : Env) (st : DLState) (url : String) :
    Decidable (alreadyCompleteValid env st url) := by
  unfold alreadyCompleteValid
  match alookup st.downloads url with
  | some ds => exact inferInstanceAs (Decidable (_ ∧ _))
  | none => exact inferInstanceAs (Decidable False)

/-- The retry count `download_file` starts from: the count of the
existing record, or 0 for a freshly created record. -/
def retryOf (st : DLState) (url : String) : Nat :=
  ((alookup st.downloads url).map DownloadStatus.retry_count).getD 0

/-- A definite failure outcome of `download_file` with cause `msg`: the
function returns `False`, the record is `failed` with `error_message` the
cause and `retry_count` bumped by exactly one from its value at entry, and
the persisted progress file matches the in-memory ledger. -/
def failedOutcome (env : Env) (st : DLState) (url : String) (res : Bool × DLState)
    (msg : String) : Prop :=
  res.1 = false ∧
  (∃ d, alookup res.2.downloads url = some d ∧ d.status = "failed" ∧
    d.error_message = some msg ∧ d.retry_count = retryOf st url + 1) ∧
  alookup res.2.fs progressFile = some (env.serialize res.2.downloads)

/-- One direction of the `errorMessage` invariant of the spec: every `failed` or
`expired` record carries an error message. -/
def errInv (m : List (String × DownloadStatus)) : Prop :=
  ∀ u d, alookup m u = some d → d.status = "failed" ∨ d.status = "expired" →
    d.error_message ≠ none

/-- `errInv` for a list of parsed ledger entries. -/
def errInvList (entries : List (String × DownloadStatus)) : Prop :=
  ∀ p, p ∈ entries → p.2.status = "failed" ∨ p.2.status = "expired" →
    p.2.error_message ≠ none

/-- The claimed two-way `errorMessage` invariant (claim C8 as stated):
`error_message` is present iff the status is `failed` or `expired`. -/
def errIff (m : List (String × DownloadStatus)) : Prop :=
  ∀ u d, alookup m u = some d →
    (d.error_message ≠ none ↔ (d.status = "failed" ∨ d.status = "expired"))

/-- Membership in the pending set as the code computes it, read off the
records and filesystem (claim C2, amended): no record; or status `pending`
or `failed` with `retry_count < 3` (the retry cap applies to both); or
status `completed`/`downloading` with the file missing or invalid. -/
def amendedPendingSpec (env : Env) (st : DLState) (url : String) : Bool :=
  match alookup st.downloads url with
  | none => true
  | some ds =>
    decide (((ds.status = "pending" ∨ ds.status = "failed") ∧ ds.retry_count < 3) ∨
      ((ds.status = "completed" ∨ ds.status = "downloading") ∧
        ((alookup st.fs ds.filename).isNone = true ∨
          validate_zip_file env st.fs ds.filename = false)))

/-- Membership in the pending set exactly as claim C2 states it: condition
(b) reads "status is `pending`, or is `failed` with `retry_count < 3`",
i.e. the retry cap constrains only `failed` records. -/
def claimedPendingSpec (env : Env) (st : DLState) (url : String) : Bool :=
  match alookup st.downloads url with
  | none => true
  | some ds =>
    decide ((ds.status = "pending" ∨ (ds.status = "failed" ∧ ds.retry_count < 3)) ∨
      ((ds.status = "completed" ∨ ds.status = "downloading") ∧
        ((alookup st.fs ds.filename).isNone = true ∨
          validate_zip_file env st.fs ds.filename = false)))

/-- The snapshot discipline claim C9 attributes to `save_progress`, stated
over an event trace in the words of the spec ("write to a temp location then
replace"): the progress file is never opened for truncation directly, and
some distinct temporary path is atomically moved over it. -/
def snapshotViaTempReplace (tr : List Event) : Prop :=
  (∀ e, e ∈ tr → e ≠ Event.openFile progressFile "w") ∧
  (∃ tmp, tmp ≠ progressFile ∧ Event.replaceFile tmp progressFile ∈ tr)

/-! ## Concrete fixtures for witnesses and counterexamples -/

/-- A concrete environment: the zip parser accepts every byte content
(the size threshold is checked before it is consulted). -/
def envW : Env :=
  { zipOk := fun _ => true
    now := fun n => "T" ++ toString n
    serialize := fun _ => []
    custom_headers := [("User-Agent", "u")]
    cookies := [("SID", "s")]
    chunk_size := 8192 }

/-- A valid 50000-byte archive body. -/
def bigBytes : List Nat := List.replicate 50000 7

/-- A state holding one completed, validated download. -/
def stDone : DLState :=
  { downloads := [("http://h/a.zip",
      { url := "http://h/a.zip", filename := "a.zip", status := "completed",
        bytes_downloaded := 50000, total_bytes := 50000 })]
    fs := [("a.zip", bigBytes)]
    events := []
    tick := 0 }

/-- A state holding one record that is `pending` yet already at the retry
cap (as produced by loading a ledger whose record failed three times and
was then demoted by the self-healing pass). -/
def stCap : DLState :=
  { downloads := [("http://h/b.zip",
      { url := "http://h/b.zip", filename := "b.zip", status := "pending",
        retry_count := 3 })]
    fs := []
    events := []
    tick := 0 }

/-- A state holding one record that claims `completed` while its on-disk
file is a 3-byte non-archive. -/
def stStale : DLState :=
  { downloads := [("http://h/c.zip",
      { url := "http://h/c.zip", filename := "c.zip", status := "completed",
        bytes_downloaded := 3, total_bytes := 3 })]
    fs := [("c.zip", [1, 2, 3])]
    events := []
    tick := 0 }

/-- A state holding one `downloading` record with a 3-byte partial file on
disk, ready for a resume attempt. -/
def stResume : DLState :=
  { downloads := [("http://h/p.zip",
      { url := "http://h/p.zip", filename := "p.zip", status := "downloading",
        bytes_downloaded := 3, total_bytes := 10 })]
    fs := [("p.zip", [1, 2, 3])]
    events := []
    tick := 0 }

/-- An expired record, as `download_file` leaves it after an HTTP 404. -/
def recExpired : DownloadStatus :=
  { url := "u", filename := "e.zip", status := "expired",
    error_message := some "Link expired (HTTP 404)" }

/-- A state holding one expired record. -/
def stExpired : DLState :=
  { downloads := [("u", recExpired)], fs := [], events := [], tick := 0 }

/-! ## Basic lemmas about the operations -/

@[simp] theorem save_progress_downloads (env : Env) (st : DLState) :
    (save_progress env st).downloads = st.downloads := rfl

@[simp] theorem save_progress_tick (env : Env) (st : DLState) :
    (save_progress env st).tick = st.tick := rfl

@[simp] theorem save_progress_events (env : Env) (st : DLState) :
    (save_progress env st).events =
      st.events ++ [Event.openFile progressFile "w", Event.writeFile progressFile] := rfl

theorem save_progress_fs_other (env : Env) (st : DLState) (p : String) (h : p ≠ progressFile) :
    alookup (save_progress env st).fs p = alookup st.fs p := by
  simp [save_progress, alookup_aset, h]

theorem save_progress_persisted (env : Env) (st : DLState) :
    alookup (save_progress env st).fs progressFile =
      some (env.serialize (save_progress env st).downloads) := by
  simp [save_progress]

theorem errInv_aset (m : List (String × DownloadStatus)) (u : String) (d : DownloadStatus)
    (hm : errInv m) (hd : d.status = "failed" ∨ d.status = "expired" → d.error_message ≠ none) :
    errInv (aset m u d) := by
  intro v e hv he
  rw [alookup_aset] at hv
  by_cases hvu : v = u
  · simp [hvu] at hv
    exact hv ▸ hd (hv ▸ he)
  · simp [hvu] at hv
    exact hm v e hv he

theorem failWith_spec (env : Env) (st : DLState) (url : String) (ds : DownloadStatus)
    (msg : String) :
    (failWith env st url ds msg).1 = false ∧
    alookup (failWith env st url ds msg).2.downloads url =
      some { ds with status := "failed", error_message := some msg,
                     retry_count := ds.retry_count + 1 } ∧
    alookup (failWith env st url ds msg).2.fs progressFile =
      some (env.serialize (failWith env st url ds msg).2.downloads) ∧
    (∃ tail, (failWith env st url ds msg).2.events = st.events ++ tail) := by
  refine ⟨rfl, ?_, ?_, ?_⟩
  · simp [failWith]
  · simp [failWith, save_progress]
  · exact ⟨_, rfl⟩

theorem failWith_errInv (env : Env) (st : DLState) (url : String) (ds : DownloadStatus)
    (msg : String) (hm : errInv st.downloads) :
    errInv (failWith env st url ds msg).2.downloads := by
  simp only [failWith, save_progress_downloads]
  exact errInv_aset _ _ _ hm (by intro _; simp)

theorem streamChunks_ds (env : Env) (url fn : String) :
    ∀ (chunks : List (List Nat)) (ds : DownloadStatus) (st : DLState) (content : List Nat),
    ∃ b, (streamChunks env url fn chunks ds st content).1 = { ds with bytes_downloaded := b } := by
  intro chunks
  induction chunks with
  | nil => intro ds st content; exact ⟨ds.bytes_downloaded, rfl⟩
  | cons c rest ih =>
    intro ds st content
    by_cases hc : c = []
    · simpa [streamChunks, hc] using ih ds st content
    · simp only [streamChunks, if_neg hc]
      exact ih _ _ _

theorem streamChunks_content (env : Env) (url fn : String) :
    ∀ (chunks : List (List Nat)) (ds : DownloadStatus) (st : DLState) (content : List Nat),
    (streamChunks env url fn chunks ds st content).2.2 = content ++ chunks.flatten := by
  intro chunks
  induction chunks with
  | nil => intro ds st content; simp [streamChunks]
  | cons c rest ih =>
    intro ds st content
    by_cases hc : c = []
    · simp [streamChunks, hc, ih]
    · simp only [streamChunks, if_neg hc]
      rw [ih]
      simp [List.append_assoc]

theorem streamChunks_fs (env : Env) (url fn : String) (hfn : fn ≠ progressFile) :
    ∀ (chunks : List (List Nat)) (ds : DownloadStatus) (st : DLState) (content : List Nat),
    alookup st.fs fn = some content →
    alookup (streamChunks env url fn chunks ds st content).2.1.fs fn =
      some (content ++ chunks.flatten) := by
  intro chunks
  induction chunks with
  | nil => intro ds st content h; simpa [streamChunks] using h
  | cons c rest ih =>
    intro ds st content h
    by_cases hc : c = []
    · simpa [streamChunks, hc] using ih ds st content h
    · simp only [streamChunks, if_neg hc]
      rw [show content ++ (c :: rest).flatten = (content ++ c) ++ rest.flatten by simp]
      split
      · apply ih
        simp [save_progress, alookup_aset, hfn]
      · apply ih
        simp [alookup_aset]

theorem streamChunks_events (env : Env) (url fn : String) :
    ∀ (chunks : List (List Nat)) (ds : DownloadStatus) (st : DLState) (content : List Nat),
    ∃ tail, (streamChunks env url fn chunks ds st content).2.1.events = st.events ++ tail := by
  intro chunks
  induction chunks with
  | nil => intro ds st content; exact ⟨[], by simp [streamChunks]⟩
  | cons c rest ih =>
    intro ds st content
    by_cases hc : c = []
    · simpa [streamChunks, hc] using ih ds st content
    · simp only [streamChunks, if_neg hc]
      split
      · obtain ⟨t, ht⟩ := ih _ _ _
        refine ⟨Event.openFile progressFile "w" :: Event.writeFile progressFile :: t, ?_⟩
        rw [ht]
        simp [save_progress]
      · exact ih _ _ _

theorem streamChunks_errInv (env : Env) (url fn : String) :
    ∀ (chunks : List (List Nat)) (ds : DownloadStatus) (st : DLState) (content : List Nat),
    errInv st.downloads →
    (ds.status = "failed" ∨ ds.status = "expired" → ds.error_message ≠ none) →
    errInv (streamChunks env url fn chunks ds st content).2.1.downloads := by
  intro chunks
  induction chunks with
  | nil => intro ds st content hm _; simpa [streamChunks] using hm
  | cons c rest ih =>
    intro ds st content hm hd
    by_cases hc : c = []
    · simpa [streamChunks, hc] using ih ds st content hm hd
    · simp only [streamChunks, if_neg hc]
      split
      · exact ih _ _ _ (errInv_aset _ _ _ hm hd) hd
      · exact ih _ _ _ (errInv_aset _ _ _ hm hd) hd

theorem download_body_raised (env : Env) (st : DLState) (url : String) (ds : DownloadStatus)
    (msg : String) :
    (download_body env (.raised msg) st url ds).1 = false ∧
    alookup (download_body env (.raised msg) st url ds).2.downloads url =
      some { ds with status := "failed", started_at := some (env.now st.tick),
                     error_message := some msg, retry_count := ds.retry_count + 1 } ∧
    alookup (download_body env (.raised msg) st url ds).2.fs progressFile =
      some (env.serialize (download_body env (.raised msg) st url ds).2.downloads) := by
  refine ⟨rfl, ?_, ?_⟩ <;>
    simp [download_body, dsDownloading, stRequested, stSaved, failWith, save_progress,
      alookup_aset]

@[simp] theorem streamChunks_fst_status (env : Env) (url fn : String) (chunks : List (List Nat))
    (ds : DownloadStatus) (st : DLState) (content : List Nat) :
    (streamChunks env url fn chunks ds st content).1.status = ds.status := by
  obtain ⟨b, hb⟩ := streamChunks_ds env url fn chunks ds st content
  rw [hb]

@[simp] theorem streamChunks_fst_retry (env : Env) (url fn : String) (chunks : List (List Nat))
    (ds : DownloadStatus) (st : DLState) (content : List Nat) :
    (streamChunks env url fn chunks ds st content).1.retry_count = ds.retry_count := by
  obtain ⟨b, hb⟩ := streamChunks_ds env url fn chunks ds st content
  rw [hb]

@[simp] theorem streamChunks_fst_error (env : Env) (url fn : String) (chunks : List (List Nat))
    (ds : DownloadStatus) (st : DLState) (content : List Nat) :
    (streamChunks env url fn chunks ds st content).1.error_message = ds.error_message := by
  obtain ⟨b, hb⟩ := streamChunks_ds env url fn chunks ds st content
  rw [hb]

@[simp] theorem streamChunks_fst_filename (env : Env) (url fn : String) (chunks : List (List Nat))
    (ds : DownloadStatus) (st : DLState) (content : List Nat) :
    (streamChunks env url fn chunks ds st content).1.filename = ds.filename := by
  obtain ⟨b, hb⟩ := streamChunks_ds env url fn chunks ds st content
  rw [hb]

@[simp] theorem streamChunks_fst_started (env : Env) (url fn : String) (chunks : List (List Nat))
    (ds : DownloadStatus) (st : DLState) (content : List Nat) :
    (streamChunks env url fn chunks ds st content).1.started_at = ds.started_at := by
  obtain ⟨b, hb⟩ := streamChunks_ds env url fn chunks ds st content
  rw [hb]

@[simp] theorem streamChunks_fst_completed (env : Env) (url fn : String) (chunks : List (List Nat))
    (ds : DownloadStatus) (st : DLState) (content : List Nat) :
    (streamChunks env url fn chunks ds st content).1.completed_at = ds.completed_at := by
  obtain ⟨b, hb⟩ := streamChunks_ds env url fn chunks ds st content
  rw [hb]

@[simp] theorem streamChunks_fst_url (env : Env) (url fn : String) (chunks : List (List Nat))
    (ds : DownloadStatus) (st : DLState) (content : List Nat) :
    (streamChunks env url fn chunks ds st content).1.url = ds.url := by
  obtain ⟨b, hb⟩ := streamChunks_ds env url fn chunks ds st content
  rw [hb]

@[simp] theorem streamChunks_fst_total (env : Env) (url fn : String) (chunks : List (List Nat))
    (ds : DownloadStatus) (st : DLState) (content : List Nat) :
    (streamChunks env url fn chunks ds st content).1.total_bytes = ds.total_bytes := by
  obtain ⟨b, hb⟩ := streamChunks_ds env url fn chunks ds st content
  rw [hb]

theorem download_body_expired (env : Env) (st : DLState) (url : String) (ds : DownloadStatus)
    (r : HttpOk) (h : r.status = 403 ∨ r.status = 404) :
    (download_body env (.resp r) st url ds).1 = false ∧
    alookup (download_body env (.resp r) st url ds).2.downloads url =
      some { ds with status := "expired", started_at := some (env.now st.tick),
                     error_message :=
                       some ("Link expired (HTTP " ++ toString r.status ++ ")") } ∧
    alookup (download_body env (.resp r) st url ds).2.fs progressFile =
      some (env.serialize (download_body env (.resp r) st url ds).2.downloads) := by
  rcases h with h | h <;>
    exact ⟨by simp [download_body, h],
           by simp [download_body, dsDownloading, stRequested, stSaved, save_progress,
             alookup_aset, h],
           by simp [download_body, dsDownloading, stRequested, stSaved, save_progress,
             alookup_aset, h]⟩

theorem download_body_bad_status (env : Env) (st : DLState) (url : String) (ds : DownloadStatus)
    (r : HttpOk) (h200 : r.status ≠ 200) (h206 : r.status ≠ 206)
    (h403 : r.status ≠ 403) (h404 : r.status ≠ 404) :
    (download_body env (.resp r) st url ds).1 = false ∧
    alookup (download_body env (.resp r) st url ds).2.downloads url =
      some { ds with status := "failed", started_at := some (env.now st.tick),
                     error_message := some ("HTTP " ++ toString r.status),
                     retry_count := ds.retry_count + 1 } ∧
    alookup (download_body env (.resp r) st url ds).2.fs progressFile =
      some (env.serialize (download_body env (.resp r) st url ds).2.downloads) := by
  exact ⟨by simp [download_body, failWith, h200, h206, h403, h404],
         by simp [download_body, dsDownloading, stRequested, stSaved, failWith, save_progress,
           alookup_aset, h200, h206, h403, h404],
         by simp [download_body, dsDownloading, stRequested, stSaved, failWith, save_progress,
           alookup_aset, h200, h206, h403, h404]⟩

@[simp] theorem totalBytesUpdate_status (ds : DownloadStatus) (r : HttpOk) :
    (totalBytesUpdate ds r).status = ds.status := by
  unfold totalBytesUpdate
  repeat' split
  all_goals rfl

@[simp] theorem totalBytesUpdate_retry (ds : DownloadStatus) (r : HttpOk) :
    (totalBytesUpdate ds r).retry_count = ds.retry_count := by
  unfold totalBytesUpdate
  repeat' split
  all_goals rfl

@[simp] theorem totalBytesUpdate_error (ds : DownloadStatus) (r : HttpOk) :
    (totalBytesUpdate ds r).error_message = ds.error_message := by
  unfold totalBytesUpdate
  repeat' split
  all_goals rfl

@[simp] theorem totalBytesUpdate_filename (ds : DownloadStatus) (r : HttpOk) :
    (totalBytesUpdate ds r).filename = ds.filename := by
  unfold totalBytesUpdate
  repeat' split
  all_goals rfl

@[simp] theorem totalBytesUpdate_started (ds : DownloadStatus) (r : HttpOk) :
    (totalBytesUpdate ds r).started_at = ds.started_at := by
  unfold totalBytesUpdate
  repeat' split
  all_goals rfl

@[simp] theorem totalBytesUpdate_completed (ds : DownloadStatus) (r : HttpOk) :
    (totalBytesUpdate ds r).completed_at = ds.completed_at := by
  unfold totalBytesUpdate
  repeat' split
  all_goals rfl

@[simp] theorem totalBytesUpdate_url (ds : DownloadStatus) (r : HttpOk) :
    (totalBytesUpdate ds r).url = ds.url := by
  unfold totalBytesUpdate
  repeat' split
  all_goals rfl

theorem download_body_ok (env : Env) (st : DLState) (url : String) (ds : DownloadStatus)
    (r : HttpOk) (hok : r.status = 200 ∨ r.status = 206) :
    download_body env (.resp r) st url ds =
      finish_transfer env r (stRequested env st url ds) url (dsDownloading env st ds)
        (resumePos env st url ds) := by
  have h34 : ¬ (r.status = 403 ∨ r.status = 404) := by
    rcases hok with h | h <;> simp [h]
  simp only [download_body, if_neg h34, if_neg (not_not_intro hok)]

theorem finish_transfer_stream_error (env : Env) (r : HttpOk) (st : DLState) (url : String)
    (ds : DownloadStatus) (rp : Nat) (msg : String) (hse : r.stream_error = some msg) :
    (finish_transfer env r st url ds rp).1 = false ∧
    (∃ d, alookup (finish_transfer env r st url ds rp).2.downloads url = some d ∧
      d.status = "failed" ∧ d.error_message = some msg ∧
      d.retry_count = ds.retry_count + 1) ∧
    alookup (finish_transfer env r st url ds rp).2.fs progressFile =
      some (env.serialize (finish_transfer env r st url ds rp).2.downloads) := by
  refine ⟨by simp [finish_transfer, failWith, hse], ?_,
    by simp [finish_transfer, failWith, save_progress, alookup_aset, hse]⟩
  simp [finish_transfer, failWith, save_progress, alookup_aset, hse]

theorem failWith_fs_frame (env : Env) (st : DLState) (url : String) (ds : DownloadStatus)
    (msg : String) (fn : String) (hfn : fn ≠ progressFile) :
    alookup (failWith env st url ds msg).2.fs fn = alookup st.fs fn := by
  simp [failWith, save_progress, alookup_aset, hfn]

theorem failWith_events_mono (env : Env) (st : DLState) (url : String) (ds : DownloadStatus)
    (msg : String) (e : Event) (he : e ∈ st.events) :
    e ∈ (failWith env st url ds msg).2.events := by
  simp [failWith, save_progress, List.mem_append, he]

theorem finalize_download_fs_frame (env : Env) (url : String) (ds : DownloadStatus)
    (st : DLState) (content : List Nat) (fn : String) (hfn : fn ≠ progressFile) :
    alookup (finalize_download env url ds st content).2.fs fn = alookup st.fs fn := by
  simp only [finalize_download]
  split <;> simp [save_progress, alookup_aset, hfn]

theorem finalize_download_events_mono (env : Env) (url : String) (ds : DownloadStatus)
    (st : DLState) (content : List Nat) (e : Event) (he : e ∈ st.events) :
    e ∈ (finalize_download env url ds st content).2.events := by
  simp only [finalize_download]
  split <;> simp [save_progress, List.mem_append, he]

theorem streamChunks_events_mono (env : Env) (url fn : String) (chunks : List (List Nat))
    (ds : DownloadStatus) (st : DLState) (content : List Nat) (e : Event)
    (he : e ∈ st.events) :
    e ∈ (streamChunks env url fn chunks ds st content).2.1.events := by
  obtain ⟨t, ht⟩ := streamChunks_events env url fn chunks ds st content
  rw [ht]
  exact List.mem_append_left _ he

theorem finish_transfer_resume (env : Env) (r : HttpOk) (st : DLState) (url : String)
    (ds : DownloadStatus) (bytes : List Nat)
    (hfn : ds.filename ≠ progressFile)
    (hfile : alookup st.fs ds.filename = some bytes)
    (hN : 0 < bytes.length) :
    (∀ e, e ∈ st.events → e ∈ (finish_transfer env r st url ds bytes.length).2.events) ∧
    Event.openFile ds.filename "ab" ∈ (finish_transfer env r st url ds bytes.length).2.events ∧
    alookup (finish_transfer env r st url ds bytes.length).2.fs ds.filename =
      some (bytes ++ r.chunks.flatten) := by
  unfold finish_transfer
  simp only [if_pos hN, totalBytesUpdate_filename, hfile, Option.getD_some]
  cases hse : r.stream_error with
  | some msg =>
    refine ⟨?_, ?_, ?_⟩
    · intro e he
      exact failWith_events_mono _ _ _ _ _ _
        (streamChunks_events_mono _ _ _ _ _ _ _ _ (by simp [List.mem_append, he]))
    · exact failWith_events_mono _ _ _ _ _ _
        (streamChunks_events_mono _ _ _ _ _ _ _ _ (by simp [List.mem_append]))
    · rw [failWith_fs_frame _ _ _ _ _ _ hfn]
      exact streamChunks_fs env url ds.filename hfn r.chunks _ _ bytes (by simp [alookup_aset])
  | none =>
    refine ⟨?_, ?_, ?_⟩
    · intro e he
      exact finalize_download_events_mono _ _ _ _ _ _
        (streamChunks_events_mono _ _ _ _ _ _ _ _ (by simp [List.mem_append, he]))
    · exact finalize_download_events_mono _ _ _ _ _ _
        (streamChunks_events_mono _ _ _ _ _ _ _ _ (by simp [List.mem_append]))
    · rw [finalize_download_fs_frame _ _ _ _ _ _ hfn]
      exact streamChunks_fs env url ds.filename hfn r.chunks _ _ bytes (by simp [alookup_aset])

theorem download_body_stream_error (env : Env) (st : DLState) (url : String)
    (ds : DownloadStatus) (r : HttpOk) (msg : String)
    (hok : r.status = 200 ∨ r.status = 206) (hse : r.stream_error = some msg) :
    (download_body env (.resp r) st url ds).1 = false ∧
    (∃ d, alookup (download_body env (.resp r) st url ds).2.downloads url = some d ∧
      d.status = "failed" ∧ d.error_message = some msg ∧
      d.retry_count = ds.retry_count + 1) ∧
    alookup (download_body env (.resp r) st url ds).2.fs progressFile =
      some (env.serialize (download_body env (.resp r) st url ds).2.downloads) := by
  rw [download_body_ok env st url ds r hok]
  have h := finish_transfer_stream_error env r (stRequested env st url ds) url
    (dsDownloading env st ds) (resumePos env st url ds) msg hse
  simpa [dsDownloading] using h

theorem download_file_dispatch (env : Env) (resp : HttpResult) (st : DLState) (url : String)
    (h : ¬ alreadyCompleteValid env st url) :
    ∃ st' ds, download_file env resp st url = download_body env resp st' url ds ∧
      st'.fs = st.fs ∧ st'.events = st.events ∧
      ds.retry_count = retryOf st url ∧
      (∀ ds0, alookup st.downloads url = some ds0 → ds.filename = ds0.filename) := by
  cases hl : alookup st.downloads url with
  | none =>
    refine ⟨{ st with
              tick := st.tick + 1,
              downloads := aset st.downloads url
                { url := url, filename := extract_filename_from_url (env.now st.tick) url,
                  status := "pending" } },
            { url := url, filename := extract_filename_from_url (env.now st.tick) url,
              status := "pending" }, ?_, rfl, rfl, ?_, ?_⟩
    · simp [download_file, hl]
    · simp [retryOf, hl]
    · intro ds0 h0
      exact Option.noConfusion h0
  | some ds0 =>
    simp only [alreadyCompleteValid, hl] at h
    by_cases h1 : ds0.status = "completed" ∧ (alookup st.fs ds0.filename).isSome = true
    · have hv : validate_zip_file env st.fs ds0.filename = false := by
        cases hvv : validate_zip_file env st.fs ds0.filename
        · rfl
        · exact absurd ⟨h1.1, h1.2, hvv⟩ h
      refine ⟨{ st with downloads := aset st.downloads url { ds0 with status := "pending" } },
              { ds0 with status := "pending" }, ?_, rfl, rfl, ?_, ?_⟩
      · simp [download_file, hl, h1.1, h1.2, hv]
      · simp [retryOf, hl]
      · intro ds1 h1'
        cases h1'
        rfl
    · refine ⟨st, ds0, ?_, rfl, rfl, ?_, ?_⟩
      · simp only [download_file, hl]
        rw [if_neg h1]
      · simp [retryOf, hl]
      · intro ds1 h1'
        cases h1'
        rfl

/-! ## Lemmas about `get_pending_urls` -/

theorem pendingStep_fs (env : Env) (st : DLState) (u : String) :
    (pendingStep env st u).2.fs = st.fs := by
  simp only [pendingStep]
  repeat' split
  all_goals rfl

theorem pendingStep_events (env : Env) (st : DLState) (u : String) :
    (pendingStep env st u).2.events = st.events := by
  simp only [pendingStep]
  repeat' split
  all_goals rfl

theorem pendingStep_frame (env : Env) (st : DLState) (u v : String) (hvu : v ≠ u) :
    alookup (pendingStep env st u).2.downloads v = alookup st.downloads v := by
  simp only [pendingStep]
  repeat' split
  all_goals simp [alookup_aset, hvu]

theorem pendingStep_decision (env : Env) (st : DLState) (u : String) :
    (pendingStep env st u).1 = amendedPendingSpec env st u := by
  cases hl : alookup st.downloads u with
  | none => simp [pendingStep, amendedPendingSpec, hl]
  | some ds =>
    by_cases h1 : ds.status = "pending" ∨ ds.status = "failed"
    · rcases h1 with h | h <;> by_cases h2 : ds.retry_count < 3 <;>
        simp [pendingStep, amendedPendingSpec, hl, h, h2]
    · by_cases h3 : ds.status = "completed" ∨ ds.status = "downloading"
      · have hnext : ∀ hh : ds.status = "completed" ∨ ds.status = "downloading",
            (pendingStep env st u).1 = amendedPendingSpec env st u := by
          intro hh
          cases hf : alookup st.fs ds.filename with
          | none => simp [pendingStep, amendedPendingSpec, hl, h1, h3, hf]
          | some bytes =>
            by_cases hv : validate_zip_file env st.fs ds.filename = true
            · simp [pendingStep, amendedPendingSpec, hl, h1, h3, hf, hv]
            · simp [pendingStep, amendedPendingSpec, hl, h1, h3, hf, hv]
        exact hnext h3
      · simp [pendingStep, amendedPendingSpec, hl, h1, h3]

theorem pendingStep_promote (env : Env) (st : DLState) (u : String) (ds : DownloadStatus)
    (bytes : List Nat)
    (hl : alookup st.downloads u = some ds)
    (hs : ds.status = "completed" ∨ ds.status = "downloading")
    (hf : alookup st.fs ds.filename = some bytes)
    (hv : validate_zip_file env st.fs ds.filename = true) :
    pendingStep env st u =
      (false, { st with
                tick := st.tick + 1,
                downloads := aset st.downloads u
                  { ds with status := "completed", bytes_downloaded := bytes.length,
                            total_bytes := bytes.length,
                            completed_at := some (env.now st.tick) } }) := by
  have h1 : ¬ (ds.status = "pending" ∨ ds.status = "failed") := by
    rcases hs with h | h <;> simp [h]
  simp only [pendingStep, hl, if_neg h1, if_pos hs, hf, hv, if_true]

theorem pendingStep_expired (env : Env) (st : DLState) (u : String) (ds : DownloadStatus)
    (hl : alookup st.downloads u = some ds) (hs : ds.status = "expired") :
    pendingStep env st u = (false, st) := by
  simp [pendingStep, hl, hs]

theorem pendingStep_failed_state (env : Env) (st : DLState) (u : String) (ds : DownloadStatus)
    (hl : alookup st.downloads u = some ds) (hs : ds.status = "failed") :
    (pendingStep env st u).2 = st := by
  simp [pendingStep, hl, hs]

theorem pendingStep_preserves_ACV (env : Env) (st : DLState) (u v : String)
    (hv : alreadyCompleteValid env st v) :
    alreadyCompleteValid env (pendingStep env st u).2 v := by
  by_cases hvu : v = u
  · subst hvu
    cases hl : alookup st.downloads v with
    | none => simp [alreadyCompleteValid, hl] at hv
    | some ds =>
      simp only [alreadyCompleteValid, hl] at hv
      cases hf : alookup st.fs ds.filename with
      | none => simp [hf] at hv
      | some bytes =>
        rw [pendingStep_promote env st v ds bytes hl (Or.inl hv.1) hf hv.2.2]
        simp [alreadyCompleteValid, alookup_aset, hf, hv.2.2]
  · have hfs := pendingStep_fs env st u
    have hfr := pendingStep_frame env st u v hvu
    unfold alreadyCompleteValid at hv ⊢
    rw [hfr, hfs]
    exact hv

theorem pendingGo_events (env : Env) :
    ∀ (urls : List String) (st : DLState), (pendingGo env urls st).2.events = st.events := by
  intro urls
  induction urls with
  | nil => intro st; rfl
  | cons u us ih => intro st; simp [pendingGo, ih, pendingStep_events]

theorem pendingGo_fs (env : Env) :
    ∀ (urls : List String) (st : DLState), (pendingGo env urls st).2.fs = st.fs := by
  intro urls
  induction urls with
  | nil => intro st; rfl
  | cons u us ih => intro st; simp [pendingGo, ih, pendingStep_fs]

theorem pendingGo_frame (env : Env) :
    ∀ (urls : List String) (st : DLState) (v : String), v ∉ urls →
      alookup (pendingGo env urls st).2.downloads v = alookup st.downloads v := by
  intro urls
  induction urls with
  | nil => intro st v _; rfl
  | cons u us ih =>
    intro st v hv
    have hvu : v ≠ u := fun h => hv (h ▸ List.mem_cons_self u us)
    have hvus : v ∉ us := fun h => hv (List.mem_cons_of_mem u h)
    simp only [pendingGo]
    rw [ih _ _ hvus, pendingStep_frame env st u v hvu]

theorem pendingGo_subset (env : Env) :
    ∀ (urls : List String) (st : DLState) (u : String),
      u ∈ (pendingGo env urls st).1 → u ∈ urls := by
  intro urls
  induction urls with
  | nil => intro st u h; simp [pendingGo] at h
  | cons w us ih =>
    intro st u h
    simp only [pendingGo] at h
    cases hd : (pendingStep env st w).1 <;> simp [hd] at h
    · exact List.mem_cons_of_mem w (ih _ _ h)
    · rcases h with h | h
      · exact h ▸ List.mem_cons_self w us
      · exact List.mem_cons_of_mem w (ih _ _ h)

theorem pendingGo_filter (env : Env) :
    ∀ (urls : List String) (st : DLState), urls.Nodup →
      (pendingGo env urls st).1 = urls.filter (amendedPendingSpec env st) := by
  intro urls
  induction urls with
  | nil => intro st _; rfl
  | cons u us ih =>
    intro st hnd
    obtain ⟨hu, hus⟩ := List.nodup_cons.mp hnd
    have hrest : (pendingGo env us (pendingStep env st u).2).1 =
        us.filter (amendedPendingSpec env st) := by
      rw [ih _ hus]
      apply List.filter_congr
      intro v hvmem
      have hne : v ≠ u := fun h => hu (h ▸ hvmem)
      unfold amendedPendingSpec
      rw [pendingStep_frame env st u v hne, pendingStep_fs]
    simp only [pendingGo, List.filter_cons, hrest, pendingStep_decision]

theorem pendingGo_all_ACV (env : Env) :
    ∀ (urls : List String) (st : DLState),
      (∀ u, u ∈ urls → alreadyCompleteValid env st u) →
      (pendingGo env urls st).1 = [] := by
  intro urls
  induction urls with
  | nil => intro st _; rfl
  | cons u us ih =>
    intro st hall
    have hu := hall u (List.mem_cons_self u us)
    have hfalse : (pendingStep env st u).1 = false := by
      cases hl : alookup st.downloads u with
      | none => simp [alreadyCompleteValid, hl] at hu
      | some ds =>
        simp only [alreadyCompleteValid, hl] at hu
        cases hf : alookup st.fs ds.filename with
        | none => simp [hf] at hu
        | some bytes =>
          rw [pendingStep_promote env st u ds bytes hl (Or.inl hu.1) hf hu.2.2]
    simp only [pendingGo, hfalse, if_false, Bool.false_eq_true]
    exact ih _ fun v hv => pendingStep_preserves_ACV env st u v (hall v (List.mem_cons_of_mem u hv))

theorem pendingGo_expired_excluded (env : Env) :
    ∀ (urls : List String) (st : DLState) (u : String) (ds : DownloadStatus),
      alookup st.downloads u = some ds → ds.status = "expired" →
      u ∉ (pendingGo env urls st).1 := by
  intro urls
  induction urls with
  | nil => intro st u ds _ _ h; simp [pendingGo] at h
  | cons w us ih =>
    intro st u ds hl hs hmem
    by_cases hwu : w = u
    · subst hwu
      simp only [pendingGo, pendingStep_expired env st w ds hl hs] at hmem
      simp at hmem
      exact ih st w ds hl hs hmem
    · have hl' : alookup (pendingStep env st w).2.downloads u = some ds := by
        rw [pendingStep_frame env st w u (fun h => hwu h.symm)]
        exact hl
      simp only [pendingGo] at hmem
      cases hd : (pendingStep env st w).1 <;> simp [hd] at hmem
      · exact ih _ u ds hl' hs hmem
      · rcases hmem with h | h
        · exact hwu h.symm
        · exact ih _ u ds hl' hs h

theorem pendingGo_append (env : Env) :
    ∀ (xs ys : List String) (st : DLState),
      pendingGo env (xs ++ ys) st =
        ((pendingGo env xs st).1 ++ (pendingGo env ys (pendingGo env xs st).2).1,
         (pendingGo env ys (pendingGo env xs st).2).2) := by
  intro xs
  induction xs with
  | nil => intro ys st; simp [pendingGo]
  | cons x xs ih =>
    intro ys st
    simp only [List.cons_append, pendingGo, List.append_eq]
    rw [ih ys (pendingStep env st x).2]
    cases (pendingStep env st x).1 <;> simp

theorem pendingGo_failed_frame (env : Env) :
    ∀ (urls : List String) (st : DLState) (u : String) (ds : DownloadStatus),
      alookup st.downloads u = some ds → ds.status = "failed" →
      alookup (pendingGo env urls st).2.downloads u = some ds := by
  intro urls
  induction urls with
  | nil => intro st u ds hl _; exact hl
  | cons w us ih =>
    intro st u ds hl hs
    simp only [pendingGo]
    by_cases hwu : w = u
    · subst hwu
      rw [show (pendingStep env st w).2 = st from pendingStep_failed_state env st w ds hl hs]
      exact ih _ _ _ hl hs
    · exact ih _ _ _ (by rw [pendingStep_frame env st w u (fun h => hwu h.symm)]; exact hl) hs

/-! ## Preservation of the forward `errorMessage` invariant -/

theorem finalize_download_errInv (env : Env) (url : String) (ds : DownloadStatus)
    (st : DLState) (content : List Nat) (hm : errInv st.downloads)
    (hd : ds.status = "failed" ∨ ds.status = "expired" → ds.error_message ≠ none) :
    errInv (finalize_download env url ds st content).2.downloads := by
  simp only [finalize_download]
  split
  · refine errInv_aset _ _ _ (errInv_aset _ _ _ hm ?_) ?_
    · exact hd
    · intro _
      simp
  · refine errInv_aset _ _ _ (errInv_aset _ _ _ hm ?_) ?_
    · exact hd
    · intro hcontra
      rcases hcontra with hcontra | hcontra <;> simp at hcontra

theorem finish_transfer_errInv (env : Env) (r : HttpOk) (st : DLState) (url : String)
    (ds : DownloadStatus) (rp : Nat) (hm : errInv st.downloads)
    (hd : ds.status = "failed" ∨ ds.status = "expired" → ds.error_message ≠ none) :
    errInv (finish_transfer env r st url ds rp).2.downloads := by
  simp only [finish_transfer]
  have hd1 : ∀ b, ({ totalBytesUpdate ds r with bytes_downloaded := b } : DownloadStatus).status
      = "failed" ∨ ({ totalBytesUpdate ds r with bytes_downloaded := b } : DownloadStatus).status
      = "expired" →
      ({ totalBytesUpdate ds r with bytes_downloaded := b } : DownloadStatus).error_message
        ≠ none := by
    intro b hb
    simpa using hd (by simpa using hb)
  have hmS : errInv (aset st.downloads url
      { totalBytesUpdate ds r with bytes_downloaded := rp }) :=
    errInv_aset _ _ _ hm (hd1 rp)
  split
  · exact failWith_errInv _ _ _ _ _ (streamChunks_errInv _ _ _ _ _ _ _ hmS (hd1 rp))
  · apply finalize_download_errInv _ _ _ _ _
      (streamChunks_errInv _ _ _ _ _ _ _ hmS (hd1 rp))
    intro hb
    have : ({ totalBytesUpdate ds r with bytes_downloaded := rp } : DownloadStatus).status
        = "failed" ∨ ({ totalBytesUpdate ds r with bytes_downloaded := rp }
          : DownloadStatus).status = "expired" := by
      simpa using hb
    simpa using hd1 rp this

theorem download_body_errInv (env : Env) (resp : HttpResult) (st : DLState) (url : String)
    (ds : DownloadStatus) (hm : errInv st.downloads) :
    errInv (download_body env resp st url ds).2.downloads := by
  have hd1 : (dsDownloading env st ds).status = "failed" ∨
      (dsDownloading env st ds).status = "expired" →
      (dsDownloading env st ds).error_message ≠ none := by
    intro h
    rcases h with h | h <;> simp [dsDownloading] at h
  have hm1 : errInv (stRequested env st url ds).downloads := by
    simp only [stRequested, stSaved, save_progress_downloads]
    exact errInv_aset _ _ _ hm hd1
  cases resp with
  | raised msg => exact failWith_errInv _ _ _ _ _ hm1
  | resp r =>
    simp only [download_body]
    split
    · exact errInv_aset _ _ _ hm1 (by intro _; simp)
    · split
      · exact failWith_errInv _ _ _ _ _ hm1
      · exact finish_transfer_errInv _ _ _ _ _ _ hm1 hd1

theorem download_file_errInv (env : Env) (resp : HttpResult) (st : DLState) (url : String)
    (hm : errInv st.downloads) :
    errInv (download_file env resp st url).2.downloads := by
  simp only [download_file]
  cases hl : alookup st.downloads url with
  | none =>
    simp only [hl]
    have hfresh : errInv (aset st.downloads url
        { url := url, filename := extract_filename_from_url (env.now st.tick) url,
          status := "pending" }) :=
      errInv_aset _ _ _ hm (by intro h; rcases h with h | h <;> simp at h)
    split
    · split
      · exact hfresh
      · exact download_body_errInv _ _ _ _ _ (errInv_aset _ _ _ hfresh
          (by intro h; rcases h with h | h <;> simp at h))
    · exact download_body_errInv _ _ _ _ _ hfresh
  | some ds0 =>
    simp only [hl]
    split
    · split
      · exact hm
      · exact download_body_errInv _ _ _ _ _ (errInv_aset _ _ _ hm
          (by intro h; rcases h with h | h <;> simp at h))
    · exact download_body_errInv _ _ _ _ _ hm

theorem pendingStep_errInv (env : Env) (st : DLState) (u : String)
    (hm : errInv st.downloads) :
    errInv (pendingStep env st u).2.downloads := by
  simp only [pendingStep]
  repeat' split
  all_goals
    first
      | exact hm
      | exact errInv_aset _ _ _ hm (by intro h; rcases h with h | h <;> simp at h)

theorem pendingGo_errInv (env : Env) :
    ∀ (urls : List String) (st : DLState), errInv st.downloads →
      errInv (pendingGo env urls st).2.downloads := by
  intro urls
  induction urls with
  | nil => intro st hm; exact hm
  | cons u us ih =>
    intro st hm
    exact ih _ (pendingStep_errInv env st u hm)

theorem errInv_foldl_aset :
    ∀ (l : List (String × DownloadStatus)) (m : List (String × DownloadStatus)),
      errInv m → errInvList l →
      errInv (l.foldl (fun m p => aset m p.1 p.2) m) := by
  intro l
  induction l with
  | nil => intro m hm _; exact hm
  | cons p t ih =>
    intro m hm hl
    exact ih _ (errInv_aset _ _ _ hm (hl p (List.mem_cons_self p t)))
      (fun q hq => hl q (List.mem_cons_of_mem p hq))

/-! ## Claim theorems -/

/-- C4: `validate_zip_file` is a total boolean function of the filesystem
with no side effects: a missing file validates to `false` (the raised
`OSError` is caught, not propagated), any file below 50000 bytes validates
to `false` regardless of content, and a file at or above the threshold
validates to `true` exactly when the zip container parser can open it and
read its member list.  In particular a 10000-byte non-archive file never
validates, so the completion gate can never mark it `completed`. -/
theorem validate_gate (env : Env) (fs : List (String × List Nat)) (p : String) :
    (alookup fs p = none → validate_zip_file env fs p = false) ∧
    (∀ bytes, alookup fs p = some bytes → bytes.length < 50000 →
      validate_zip_file env fs p = false) ∧
    (∀ bytes, alookup fs p = some bytes → 50000 ≤ bytes.length →
      validate_zip_file env fs p = env.zipOk bytes) := by
  refine ⟨?_, ?_, ?_⟩
  · intro h
    simp [validate_zip_file, h]
  · intro bytes h hlen
    simp [validate_zip_file, h, hlen]
  · intro bytes h hlen
    simp [validate_zip_file, h, Nat.not_lt.mpr hlen]

/-- Witness for C4 at concrete inputs: a 10000-byte file is rejected, a
50000-byte file is decided by the container parser. -/
theorem validate_gate_witness :
    validate_zip_file envW [("f", List.replicate 10000 7)] "f" = false ∧
    validate_zip_file envW [("g", List.replicate 50000 7)] "g" =
      envW.zipOk (List.replicate 50000 7) :=
  ⟨(validate_gate envW [("f", List.replicate 10000 7)] "f").2.1
      (List.replicate 10000 7) (by rw [alookup]; rw [if_pos rfl])
      (by rw [List.length_replicate]; norm_num),
   (validate_gate envW [("g", List.replicate 50000 7)] "g").2.2
      (List.replicate 50000 7) (by rw [alookup]; rw [if_pos rfl])
      (by rw [List.length_replicate])⟩

/-- C1: `download_file` on a record that is `completed` with an existing,
valid file returns `True` with the state bitwise unchanged — no event
(hence no network request) is emitted, and the status, sizes and
timestamps are untouched, whatever the network would have answered; and a
URL list all of whose records are in that condition produces an empty
pending set, so a second scheduler pass dispatches nothing and performs
zero network requests. -/
theorem completed_valid_is_noop (env : Env) (st : DLState) :
    (∀ resp url, alreadyCompleteValid env st url →
      download_file env resp st url = (true, st)) ∧
    (∀ urls, (∀ u, u ∈ urls → alreadyCompleteValid env st u) →
      (get_pending_urls env st urls).1 = []) := by
  constructor
  · intro resp url h
    cases hl : alookup st.downloads url with
    | none => simp [alreadyCompleteValid, hl] at h
    | some ds =>
      simp only [alreadyCompleteValid, hl] at h
      simp [download_file, hl, h.1, h.2.1, h.2.2]
  · intro urls hall
    exact pendingGo_all_ACV env urls st hall

/-- Witness for C1: a completed, validated 50000-byte archive is not
re-fetched even when the network would raise, and is not pending. -/
theorem completed_valid_is_noop_witness :
    download_file envW (.raised "boom") stDone "http://h/a.zip" = (true, stDone) ∧
    (get_pending_urls envW stDone ["http://h/a.zip"]).1 = [] := by
  have hlen : bigBytes.length = 50000 := by rw [bigBytes, List.length_replicate]
  have hv : validate_zip_file envW stDone.fs "a.zip" = true := by
    unfold validate_zip_file
    rw [show alookup stDone.fs "a.zip" = some bigBytes from rfl]
    show (if bigBytes.length < 50000 then false else envW.zipOk bigBytes) = true
    rw [hlen, if_neg (by norm_num)]
    rfl
  have hACV : alreadyCompleteValid envW stDone "http://h/a.zip" := by
    unfold alreadyCompleteValid
    rw [show alookup stDone.downloads "http://h/a.zip" = some
      { url := "http://h/a.zip", filename := "a.zip", status := "completed",
        bytes_downloaded := 50000, total_bytes := 50000 } from rfl]
    exact ⟨rfl, rfl, hv⟩
  exact ⟨(completed_valid_is_noop envW stDone).1 (.raised "boom") "http://h/a.zip" hACV,
    (completed_valid_is_noop envW stDone).2 ["http://h/a.zip"]
      (by intro u hu; rw [List.mem_singleton] at hu; subst hu; exact hACV)⟩

/-- C9 counterexample: `save_progress` does not implement the
write-to-temp-then-replace discipline the claim states — its trace on a
concrete state opens the progress file itself in truncating `'w'` mode and
contains no replace of a temporary file. -/
theorem snapshot_not_temp_replace_counterexample :
    (save_progress envW initSt).events =
      [Event.openFile progressFile "w", Event.writeFile progressFile] ∧
    ¬ snapshotViaTempReplace ((save_progress envW initSt).events) := by
  refine ⟨rfl, ?_⟩
  intro h
  exact h.1 (Event.openFile progressFile "w") (by simp [save_progress, initSt]) rfl

/-- C9 amended: every ledger snapshot writes the serialized map by opening
the progress file directly in truncating `'w'` mode — no temporary
location and no replace step — so a crash mid-write can leave a truncated
progress file. -/
theorem snapshot_writes_directly (env : Env) (st : DLState) :
    (save_progress env st).events =
      st.events ++ [Event.openFile progressFile "w", Event.writeFile progressFile] ∧
    (save_progress env st).fs = aset st.fs progressFile (env.serialize st.downloads) ∧
    ¬ snapshotViaTempReplace
        [Event.openFile progressFile "w", Event.writeFile progressFile] := by
  refine ⟨rfl, rfl, ?_⟩
  intro h
  exact h.1 (Event.openFile progressFile "w") (by simp) rfl

/-- Witness for C9 (amended): on the empty initial state, the snapshot
trace is exactly the truncating open plus the write, with no temp/replace. -/
theorem snapshot_writes_directly_witness :
    (save_progress envW initSt).events =
      [Event.openFile progressFile "w", Event.writeFile progressFile] ∧
    ¬ snapshotViaTempReplace
        [Event.openFile progressFile "w", Event.writeFile progressFile] :=
  ⟨((snapshot_writes_directly envW initSt).1).trans (List.nil_append _),
   (snapshot_writes_directly envW initSt).2.2⟩

/-- C7 counterexample: `extract_filename_from_url` is not a function of
the URL alone — on a URL that reaches the timestamp fallback, two
invocations at different clock readings return different filenames. -/
theorem filename_not_deterministic_counterexample :
    extract_filename_from_url "20240101_000000" "http://example.com/file" ≠
      extract_filename_from_url "20240102_000000" "http://example.com/file" := by
  decide

/-- C7 amended: filename derivation is deterministic (independent of the
clock) for every URL that hits either non-fallback branch — a URL path
whose basename is a nonempty `.zip` name, or a URL containing a
`takeout-...zip` token; only the final timestamp fallback depends on the
clock, and stability there relies on the record storing the filename. -/
theorem filename_deterministic_on_archive_urls (n1 n2 url : String)
    (h : (zipBasenameBranch url || takeoutBranch url) = true) :
    extract_filename_from_url n1 url = extract_filename_from_url n2 url := by
  rw [Bool.or_eq_true] at h
  by_cases hz : zipBasenameBranch url = true
  · simp [extract_filename_from_url, hz]
  · have ht : takeoutBranch url = true := h.resolve_left hz
    unfold takeoutBranch at ht
    unfold extract_filename_from_url
    rw [if_neg hz, if_neg hz]
    cases hfs : findSub url.data ("takeout-".data) with
    | none => rw [hfs] at ht; simp at ht
    | some s =>
      rw [hfs] at ht
      dsimp only at ht ⊢
      cases hfz : findSubFrom url.data (".zip".data) s with
      | none => rw [hfz] at ht; simp at ht
      | some e => dsimp only

/-- Witness for C7 (amended): a `takeout-....zip` URL derives the same
filename under two different clocks. -/
theorem filename_deterministic_witness :
    (zipBasenameBranch "http://h/takeout-1.zip" || takeoutBranch "http://h/takeout-1.zip")
      = true ∧
    extract_filename_from_url "A" "http://h/takeout-1.zip" =
      extract_filename_from_url "B" "http://h/takeout-1.zip" :=
  ⟨by decide, filename_deterministic_on_archive_urls "A" "B" "http://h/takeout-1.zip" (by decide)⟩

/-- C2 counterexample: pending condition (b) of the claim applies the retry
cap only to `failed` records, but the code applies it to `pending` records
too — on a ledger whose record is `pending` with `retry_count = 3`, the
claimed predicate holds yet `get_pending_urls` returns the empty list. -/
theorem pending_retry_cap_counterexample :
    claimedPendingSpec envW stCap "http://h/b.zip" = true ∧
    (get_pending_urls envW stCap ["http://h/b.zip"]).1 = [] :=
  ⟨by decide, by decide⟩

/-- C2 amended: over a duplicate-free URL list, `get_pending_urls` returns
exactly the URLs with no record, with a `pending` or `failed` record whose
`retry_count < 3` (the cap constrains both statuses), or with a
`completed`/`downloading` record whose file is missing or invalid; a
`failed` record (in particular one at the cap) is left untouched. -/
theorem pending_set_characterization (env : Env) (st : DLState) (urls : List String)
    (hnd : urls.Nodup) :
    (get_pending_urls env st urls).1 = urls.filter (amendedPendingSpec env st) ∧
    (∀ u ds, alookup st.downloads u = some ds → ds.status = "failed" →
      alookup (get_pending_urls env st urls).2.downloads u = some ds) := by
  constructor
  · exact pendingGo_filter env urls st hnd
  · intro u ds hl hs
    simp only [get_pending_urls, save_progress_downloads]
    exact pendingGo_failed_frame env urls st u ds hl hs

/-- Witness for C2 (amended), on a two-URL list: the capped pending record
is excluded and survives unchanged, the unknown URL is included. -/
theorem pending_set_characterization_witness :
    (get_pending_urls envW stCap ["http://h/b.zip", "http://h/new.zip"]).1 =
      ["http://h/b.zip", "http://h/new.zip"].filter (amendedPendingSpec envW stCap) ∧
    (get_pending_urls envW stCap ["http://h/b.zip", "http://h/new.zip"]).1 =
      ["http://h/new.zip"] :=
  ⟨(pending_set_characterization envW stCap ["http://h/b.zip", "http://h/new.zip"]
      (by decide)).1, by decide⟩

/-- C6: a 403 or 404 response makes `download_file` mark the record
`expired` with an error message carrying the status code, persist the
ledger (on-disk progress equals the in-memory map), and return failure
without touching `retry_count`; and an `expired` record is excluded from
every pending-set computation. -/
theorem expired_on_403_404 (env : Env) (st : DLState) (url : String) (r : HttpOk)
    (hna : ¬ alreadyCompleteValid env st url) (hs : r.status = 403 ∨ r.status = 404) :
    ((download_file env (.resp r) st url).1 = false ∧
     (∃ d, alookup (download_file env (.resp r) st url).2.downloads url = some d ∧
        d.status = "expired" ∧
        d.error_message = some ("Link expired (HTTP " ++ toString r.status ++ ")") ∧
        d.retry_count = retryOf st url) ∧
     alookup (download_file env (.resp r) st url).2.fs progressFile =
       some (env.serialize (download_file env (.resp r) st url).2.downloads)) ∧
    (∀ (st' : DLState) (urls : List String) (u : String) (ds : DownloadStatus),
      alookup st'.downloads u = some ds → ds.status = "expired" →
      u ∉ (get_pending_urls env st' urls).1) := by
  constructor
  · obtain ⟨st1, ds1, heq, hfs, hev, hretry, _⟩ :=
      download_file_dispatch env (.resp r) st url hna
    rw [heq]
    obtain ⟨h1, h2, h3⟩ := download_body_expired env st1 url ds1 r hs
    exact ⟨h1, ⟨_, h2, rfl, rfl, hretry⟩, h3⟩
  · intro st' urls u ds hl hs'
    exact pendingGo_expired_excluded env urls st' u ds hl hs'

/-- Witness for C6: a 404 on a fresh URL fails without retry-count
increment, and a concrete expired record is not scheduled. -/
theorem expired_on_403_404_witness :
    (download_file envW (.resp ⟨404, none, none, [], none⟩) initSt "http://h/a.zip").1
      = false ∧
    "u" ∉ (get_pending_urls envW stExpired ["u"]).1 :=
  ⟨(expired_on_403_404 envW initSt "http://h/a.zip" ⟨404, none, none, [], none⟩
      (by simp [alreadyCompleteValid, initSt]) (Or.inr rfl)).1.1,
   (expired_on_403_404 envW initSt "http://h/a.zip" ⟨404, none, none, [], none⟩
      (by simp [alreadyCompleteValid, initSt]) (Or.inr rfl)).2 stExpired ["u"] "u"
      recExpired (by rw [stExpired]; rw [alookup]; rw [if_pos rfl]) rfl⟩

/-- C3: `download_file` converts every exception of the transfer steps into
a definite failure outcome instead of propagating it: a raised request
exception, an unexpected HTTP status (which the code turns into a raised
exception), and a mid-stream exception each yield `False`, a `failed`
record carrying the human-readable cause, `retry_count` incremented by
exactly one from its value at entry, and a persisted ledger that matches
the in-memory map. -/
theorem transfer_exceptions_contained (env : Env) (st : DLState) (url : String)
    (hna : ¬ alreadyCompleteValid env st url) :
    (∀ msg, failedOutcome env st url (download_file env (.raised msg) st url) msg) ∧
    (∀ r : HttpOk, r.status ≠ 200 → r.status ≠ 206 → r.status ≠ 403 → r.status ≠ 404 →
      failedOutcome env st url (download_file env (.resp r) st url)
        ("HTTP " ++ toString r.status)) ∧
    (∀ (r : HttpOk) msg, (r.status = 200 ∨ r.status = 206) → r.stream_error = some msg →
      failedOutcome env st url (download_file env (.resp r) st url) msg) := by
  refine ⟨?_, ?_, ?_⟩
  · intro msg
    obtain ⟨st1, ds1, heq, _, _, hretry, _⟩ :=
      download_file_dispatch env (.raised msg) st url hna
    unfold failedOutcome
    rw [heq]
    obtain ⟨h1, h2, h3⟩ := download_body_raised env st1 url ds1 msg
    exact ⟨h1, ⟨_, h2, rfl, rfl, by rw [hretry]⟩, h3⟩
  · intro r h200 h206 h403 h404
    obtain ⟨st1, ds1, heq, _, _, hretry, _⟩ :=
      download_file_dispatch env (.resp r) st url hna
    unfold failedOutcome
    rw [heq]
    obtain ⟨h1, h2, h3⟩ := download_body_bad_status env st1 url ds1 r h200 h206 h403 h404
    exact ⟨h1, ⟨_, h2, rfl, rfl, by rw [hretry]⟩, h3⟩
  · intro r msg hok hse
    obtain ⟨st1, ds1, heq, _, _, hretry, _⟩ :=
      download_file_dispatch env (.resp r) st url hna
    unfold failedOutcome
    rw [heq]
    obtain ⟨h1, ⟨d, hd, hds, hde, hdr⟩, h3⟩ :=
      download_body_stream_error env st1 url ds1 r msg hok hse
    exact ⟨h1, ⟨d, hd, hds, hde, by rw [hdr, hretry]⟩, h3⟩

/-- Witness for C3: a raised request exception on a fresh URL produces the
failed outcome with the cause recorded and `retry_count` bumped to 1. -/
theorem transfer_exceptions_contained_witness :
    failedOutcome envW initSt "http://h/a.zip"
      (download_file envW (.raised "boom") initSt "http://h/a.zip") "boom" :=
  (transfer_exceptions_contained envW initSt "http://h/a.zip"
    (by simp [alreadyCompleteValid, initSt])).1 "boom"

/-- C8 counterexample: the two-way `errorMessage` invariant fails — on a
ledger satisfying it (a `completed` record with no error message) whose
on-disk file is a 3-byte non-archive, a single `get_pending_urls` pass
demotes the record to `pending` while also setting `error_message`, so the
"present iff failed or expired" biconditional is violated. -/
theorem error_iff_counterexample :
    errIff stStale.downloads ∧
    ¬ errIff ((get_pending_urls envW stStale ["http://h/c.zip"]).2.downloads) := by
  constructor
  · intro u d h
    by_cases hu : u = "http://h/c.zip"
    · subst hu
      rw [show alookup stStale.downloads "http://h/c.zip" = some
          { url := "http://h/c.zip", filename := "c.zip", status := "completed",
            bytes_downloaded := 3, total_bytes := 3 } from rfl] at h
      injection h with h
      subst h
      simp
    · simp only [stStale, alookup, if_neg hu] at h
      exact Option.noConfusion h
  · intro hiff
    have hl : alookup ((get_pending_urls envW stStale ["http://h/c.zip"]).2.downloads)
        "http://h/c.zip" = some
        { url := "http://h/c.zip", filename := "c.zip", status := "pending",
          bytes_downloaded := 3, total_bytes := 3,
          error_message := some "Previous download was HTML, not ZIP" } := by decide
    have h2 := (hiff _ _ hl).mp (by simp)
    rcases h2 with h2 | h2 <;> exact absurd h2 (by decide)

/-- C8 amended: only the forward direction of the invariant holds — every
record that `download_file` or `get_pending_urls` leaves `failed` or
`expired` carries an error message, and this is preserved by any sequence
of `download_file`, `get_pending_urls` and `load_progress` (for ledger
data itself satisfying it); the converse fails because transitions away
from `failed`/`expired` never clear `error_message`. -/
theorem error_message_forward_invariant (env : Env) :
    (∀ resp st url, errInv st.downloads →
      errInv (download_file env resp st url).2.downloads) ∧
    (∀ st urls, errInv st.downloads →
      errInv (get_pending_urls env st urls).2.downloads) ∧
    (∀ parsed st, errInv st.downloads →
      (∀ entries, parsed = some entries → errInvList entries) →
      errInv (load_progress parsed st).downloads) := by
  refine ⟨?_, ?_, ?_⟩
  · intro resp st url hm
    exact download_file_errInv env resp st url hm
  · intro st urls hm
    simp only [get_pending_urls, save_progress_downloads]
    exact pendingGo_errInv env urls st hm
  · intro parsed st hm hp
    cases parsed with
    | none => exact hm
    | some entries =>
      simp only [load_progress]
      exact errInv_foldl_aset entries st.downloads hm (hp entries rfl)

/-- Witness for C8 (amended): starting from the empty ledger, a failed
download leaves a map in which every failed record has an error message. -/
theorem error_message_forward_invariant_witness :
    errInv ((download_file envW (.raised "boom") initSt "u").2.downloads) :=
  (error_message_forward_invariant envW).1 (.raised "boom") initSt "u"
    (by
      intro u d h
      rw [show alookup initSt.downloads u = none from rfl] at h
      exact Option.noConfusion h)

/-- C10: `get_pending_urls` self-heals records that claim
`completed`/`downloading` and whose on-disk file exists and validates — it
rewrites the record in place to `completed` with both sizes set to the
actual file size and `completed_at` stamped, excludes the URL from the
returned pending list, and performs no network activity (its whole event
trace is one ledger snapshot). -/
theorem pending_promotes_valid_records (env : Env) (st : DLState) (urls : List String)
    (url : String) (ds : DownloadStatus) (bytes : List Nat)
    (hnd : urls.Nodup) (hmem : url ∈ urls)
    (hrec : alookup st.downloads url = some ds)
    (hstat : ds.status = "completed" ∨ ds.status = "downloading")
    (hfile : alookup st.fs ds.filename = some bytes)
    (hval : validate_zip_file env st.fs ds.filename = true) :
    url ∉ (get_pending_urls env st urls).1 ∧
    (∃ t, alookup (get_pending_urls env st urls).2.downloads url =
      some { ds with
             status := "completed", bytes_downloaded := bytes.length,
             total_bytes := bytes.length, completed_at := some t }) ∧
    (get_pending_urls env st urls).2.events =
      st.events ++ [Event.openFile progressFile "w", Event.writeFile progressFile] := by
  obtain ⟨pre, post, rfl⟩ := List.append_of_mem hmem
  rw [List.nodup_append] at hnd
  obtain ⟨hpre, hcp, hdisj⟩ := hnd
  have hupre : url ∉ pre := fun hm => (hdisj hm) (List.mem_cons_self url post)
  have hupost : url ∉ post := (List.nodup_cons.mp hcp).1
  have hrec1 : alookup (pendingGo env pre st).2.downloads url = some ds := by
    rw [pendingGo_frame env pre st url hupre]
    exact hrec
  have hfs1 : (pendingGo env pre st).2.fs = st.fs := pendingGo_fs env pre st
  have hstep := pendingStep_promote env (pendingGo env pre st).2 url ds bytes hrec1 hstat
    (by rw [hfs1]; exact hfile) (by rw [hfs1]; exact hval)
  have happ := pendingGo_append env pre (url :: post) st
  refine ⟨?_, ?_, ?_⟩
  · intro hmem'
    rw [show (get_pending_urls env st (pre ++ url :: post)).1
        = (pendingGo env (pre ++ url :: post) st).1 from rfl, happ] at hmem'
    rw [List.mem_append] at hmem'
    rcases hmem' with hmem' | hmem'
    · exact hupre (pendingGo_subset env pre st url hmem')
    · simp only [pendingGo, hstep] at hmem'
      simp at hmem'
      exact hupost (pendingGo_subset env post _ url hmem')
  · refine ⟨env.now (pendingGo env pre st).2.tick, ?_⟩
    rw [show (get_pending_urls env st (pre ++ url :: post)).2.downloads
        = (pendingGo env (pre ++ url :: post) st).2.downloads from rfl, happ]
    simp only [pendingGo, hstep]
    rw [pendingGo_frame env post _ url hupost]
    simp [alookup_aset]
  · rw [show (get_pending_urls env st (pre ++ url :: post)).2.events
        = (pendingGo env (pre ++ url :: post) st).2.events
            ++ [Event.openFile progressFile "w", Event.writeFile progressFile] from rfl]
    rw [pendingGo_events]

/-- Witness for C10: a completed, valid record is promoted in place and
stays out of the pending list; the pass only snapshots the ledger. -/
theorem pending_promotes_valid_records_witness :
    "http://h/a.zip" ∉ (get_pending_urls envW stDone ["http://h/a.zip"]).1 ∧
    (∃ t, alookup (get_pending_urls envW stDone ["http://h/a.zip"]).2.downloads
        "http://h/a.zip" = some
        { url := "http://h/a.zip", filename := "a.zip", status := "completed",
          bytes_downloaded := bigBytes.length, total_bytes := bigBytes.length,
          completed_at := some t }) ∧
    (get_pending_urls envW stDone ["http://h/a.zip"]).2.events =
      stDone.events ++ [Event.openFile progressFile "w", Event.writeFile progressFile] :=
  pending_promotes_valid_records envW stDone ["http://h/a.zip"] "http://h/a.zip"
    { url := "http://h/a.zip", filename := "a.zip", status := "completed",
      bytes_downloaded := 50000, total_bytes := 50000 } bigBytes
    (by decide) (by decide) rfl (Or.inl rfl) rfl
    (by
      unfold validate_zip_file
      rw [show alookup stDone.fs "a.zip" = some bigBytes from rfl]
      show (if bigBytes.length < 50000 then false else envW.zipOk bigBytes) = true
      rw [show bigBytes.length = 50000 from by rw [bigBytes, List.length_replicate],
        if_neg (by norm_num)]
      rfl)

/-- C5: when the local file already holds N > 0 bytes and the attempt
proceeds to the network, `download_file` issues its request with header
`Range: bytes=N-`, opens the local file in append (`'ab'`) mode — never
truncating — and the streamed body lands after the existing bytes, so the
final file is the old content followed by the response body; this holds
for a 206 and equally for a 200 full-content response (the reference keeps
appending). -/
theorem resume_appends_with_range (env : Env) (st : DLState) (url : String)
    (ds : DownloadStatus) (r : HttpOk) (bytes : List Nat)
    (hna : ¬ alreadyCompleteValid env st url)
    (hrec : alookup st.downloads url = some ds)
    (hfn : ds.filename ≠ progressFile)
    (hfile : alookup st.fs ds.filename = some bytes)
    (hN : 0 < bytes.length)
    (hok : r.status = 200 ∨ r.status = 206) :
    Event.netRequest url
        (aset env.custom_headers "Range" ("bytes=" ++ toString bytes.length ++ "-"))
        env.cookies ∈ (download_file env (.resp r) st url).2.events ∧
    Event.openFile ds.filename "ab" ∈ (download_file env (.resp r) st url).2.events ∧
    alookup (download_file env (.resp r) st url).2.fs ds.filename =
      some (bytes ++ r.chunks.flatten) := by
  obtain ⟨st1, ds1, heq, hfs1, hev1, hretry, hfn1⟩ :=
    download_file_dispatch env (.resp r) st url hna
  have hfneq : ds1.filename = ds.filename := hfn1 ds hrec
  rw [heq, download_body_ok env st1 url ds1 r hok]
  have hfileS : alookup (stSaved env st1 url ds1).fs ds1.filename = some bytes := by
    rw [hfneq]
    simp only [stSaved, save_progress]
    rw [alookup_aset_ne _ _ _ _ hfn, hfs1]
    exact hfile
  have hrp : resumePos env st1 url ds1 = bytes.length := by
    unfold resumePos
    rw [hfileS]
    rfl
  rw [hrp]
  have hresume := finish_transfer_resume env r (stRequested env st1 url ds1) url
    (dsDownloading env st1 ds1) bytes
    (show ds1.filename ≠ progressFile from hfneq ▸ hfn)
    (show alookup (stSaved env st1 url ds1).fs ds1.filename = some bytes from hfileS)
    hN
  refine ⟨?_, ?_, ?_⟩
  · apply hresume.1
    have hhdrs : requestHeaders env st1 url ds1 =
        aset env.custom_headers "Range" ("bytes=" ++ toString bytes.length ++ "-") := by
      unfold requestHeaders
      rw [hrp, if_pos hN]
    show Event.netRequest url
        (aset env.custom_headers "Range" ("bytes=" ++ toString bytes.length ++ "-"))
        env.cookies ∈ (stSaved env st1 url ds1).events
          ++ [Event.netRequest url (requestHeaders env st1 url ds1) env.cookies]
    rw [← hhdrs]
    exact List.mem_append_right _ (List.mem_singleton.mpr rfl)
  · have h2 := hresume.2.1
    rw [show (dsDownloading env st1 ds1).filename = ds.filename from hfneq] at h2
    exact h2
  · have h3 := hresume.2.2
    rw [show (dsDownloading env st1 ds1).filename = ds.filename from hfneq] at h3
    exact h3

/-- Witness for C5: resuming a 3-byte partial file against a 200 response
sends `Range: bytes=3-`, opens in append mode, and leaves the concatenated
content on disk. -/
theorem resume_appends_with_range_witness :
    Event.netRequest "http://h/p.zip"
        (aset envW.custom_headers "Range"
          ("bytes=" ++ toString ([1, 2, 3] : List Nat).length ++ "-"))
        envW.cookies ∈
      (download_file envW (.resp ⟨200, none, some 10, [[4, 5]], none⟩)
        stResume "http://h/p.zip").2.events ∧
    Event.openFile "p.zip" "ab" ∈
      (download_file envW (.resp ⟨200, none, some 10, [[4, 5]], none⟩)
        stResume "http://h/p.zip").2.events ∧
    alookup (download_file envW (.resp ⟨200, none, some 10, [[4, 5]], none⟩)
        stResume "http://h/p.zip").2.fs "p.zip" =
      some (([1, 2, 3] : List Nat) ++ ([[4, 5]] : List (List Nat)).flatten) :=
  resume_appends_with_range envW stResume "http://h/p.zip"
    { url := "http://h/p.zip", filename := "p.zip", status := "downloading",
      bytes_downloaded := 3, total_bytes := 10 }
    ⟨200, none, some 10, [[4, 5]], none⟩ [1, 2, 3]
    (by simp [alreadyCompleteValid, stResume, alookup])
    rfl (by decide) rfl (by decide) (Or.inl rfl)

end Takeout
